import Mathlib

/-!
Verification of the push-notification reminder dispatcher in
supabase/functions/send-reminders/index.ts.

The file embeds the dispatcher's pure logic in Lean:
byte strings are lists of naturals (each below 256), the platform's
Web Crypto primitives (HMAC-SHA-256, AES-GCM, ECDSA) are abstracted as
parameters carrying only their interface guarantees, and the ambient
runtime state (Intl time-zone database at the invocation instant, the
Supabase tables, the per-recipient network outcomes) is passed
explicitly.
-/

namespace SendReminders

/-! ## UTF-8 encoding (models TextEncoder().encode) -/

/-- UTF-8 encoding of a single Unicode scalar value, as byte values. -/
def utf8Char (c : Char) : List Nat :=
  if c.toNat < 128 then [c.toNat]
  else if c.toNat < 2048 then [192 + c.toNat / 64, 128 + c.toNat % 64]
  else if c.toNat < 65536 then
    [224 + c.toNat / 4096, 128 + c.toNat / 64 % 64, 128 + c.toNat % 64]
  else
    [240 + c.toNat / 262144, 128 + c.toNat / 4096 % 64,
     128 + c.toNat / 64 % 64, 128 + c.toNat % 64]

/-- UTF-8 encoding of a string, modelling new TextEncoder().encode(s). -/
def utf8 (s : String) : List Nat :=
  s.data.flatMap utf8Char

theorem char_toNat_lt (c : Char) : c.toNat < 1114112 := by
  have h := c.valid
  rcases h with h | ⟨h1, h2⟩
  · exact Nat.lt_trans h (by norm_num)
  · exact h2

theorem utf8Char_lt (c : Char) : ∀ b ∈ utf8Char c, b < 256 := by
  intro b hb
  have hc := char_toNat_lt c
  unfold utf8Char at hb
  split at hb
  · simp at hb; omega
  · split at hb
    · simp at hb; rcases hb with hb | hb <;> omega
    · split at hb
      · simp at hb; rcases hb with hb | hb | hb <;> omega
      · simp at hb; rcases hb with hb | hb | hb | hb <;> omega

theorem utf8_lt (s : String) : ∀ b ∈ utf8 s, b < 256 := by
  intro b hb
  unfold utf8 at hb
  rcases List.mem_flatMap.mp hb with ⟨c, _, hbc⟩
  exact utf8Char_lt c b hbc

/-! ## Base64 / base64url (models base64UrlDecode and base64UrlEncode) -/

/-- The standard base64 alphabet, in index order. -/
def stdChars : List Char :=
  "ABCDEFGHIJKLMNOPQRSTUVWXYZabcdefghijklmnopqrstuvwxyz0123456789+/".data

/-- Character for a 6-bit value (btoa direction). -/
def b64Char (n : Nat) : Char := stdChars.getD n 'A'

/-- Six-bit value of an alphabet character; none for a non-alphabet
character (atob throws there). -/
def b64Val (c : Char) : Option Nat := stdChars.indexOf? c

/-- Output of btoa on a binary string of the given byte values,
including trailing padding characters. -/
def btoaBytes : List Nat → List Char
  | [] => []
  | [a] => [b64Char (a / 4), b64Char (a % 4 * 16), '=', '=']
  | [a, b] => [b64Char (a / 4), b64Char (a % 4 * 16 + b / 16), b64Char (b % 16 * 4), '=']
  | a :: b :: c :: rest =>
    b64Char (a / 4) :: b64Char (a % 4 * 16 + b / 16) ::
    b64Char (b % 16 * 4 + c / 64) :: b64Char (c % 64) :: btoaBytes rest

/-- The non-padding portion of btoaBytes. -/
def btoaBody : List Nat → List Char
  | [] => []
  | [a] => [b64Char (a / 4), b64Char (a % 4 * 16)]
  | [a, b] => [b64Char (a / 4), b64Char (a % 4 * 16 + b / 16), b64Char (b % 16 * 4)]
  | a :: b :: c :: rest =>
    b64Char (a / 4) :: b64Char (a % 4 * 16 + b / 16) ::
    b64Char (b % 16 * 4 + c / 64) :: b64Char (c % 64) :: btoaBody rest

/-- Number of trailing padding characters btoa appends. -/
def eqCount (bs : List Nat) : Nat := (3 - bs.length % 3) % 3

/-- Replacement performed by .replace(+ for -).replace(/ for _). -/
def urlChar (c : Char) : Char :=
  if c = '+' then '-' else if c = '/' then '_' else c

/-- Replacement performed by .replace(- for +).replace(_ for /). -/
def stdChar (c : Char) : Char :=
  if c = '-' then '+' else if c = '_' then '/' else c

/-- Strip all trailing padding characters (the regex replace of trailing
runs of the padding character with the empty string). -/
def dropEq (cs : List Char) : List Char :=
  (cs.reverse.dropWhile (fun c => c == '=')).reverse

/-- Core base64 decode of a padding-free character list: groups of four
characters give three bytes, a final group of two or three characters
gives one or two bytes, a dangling single character is an error. -/
def atobCore : List Char → Option (List Nat)
  | [] => some []
  | [_] => none
  | [c1, c2] =>
    match b64Val c1, b64Val c2 with
    | some v1, some v2 => some [v1 * 4 + v2 / 16]
    | _, _ => none
  | [c1, c2, c3] =>
    match b64Val c1, b64Val c2, b64Val c3 with
    | some v1, some v2, some v3 => some [v1 * 4 + v2 / 16, v2 % 16 * 16 + v3 / 4]
    | _, _, _ => none
  | c1 :: c2 :: c3 :: c4 :: rest =>
    match b64Val c1, b64Val c2, b64Val c3, b64Val c4, atobCore rest with
    | some v1, some v2, some v3, some v4, some tail =>
      some ([v1 * 4 + v2 / 16, v2 % 16 * 16 + v3 / 4, v3 % 4 * 64 + v4] ++ tail)
    | _, _, _, _, _ => none

/-- ASCII whitespace removed by the forgiving base64 decode. -/
def isB64Ws (c : Char) : Bool :=
  c == ' ' || c == '\t' || c == '\n' || c == '\r' || c == '\x0c'

/-- Remove up to two trailing padding characters. -/
def stripUpTo2Eq (cs : List Char) : List Char :=
  if cs.getLast? = some '=' then
    if cs.dropLast.getLast? = some '=' then cs.dropLast.dropLast else cs.dropLast
  else cs

/-- Model of atob (the forgiving base64 decode): strip whitespace,
strip up to two trailing padding characters when the length is a
multiple of four, then decode; none models a thrown exception. -/
def atobModel (cs : List Char) : Option (List Nat) :=
  let ws := cs.filter (fun c => !isB64Ws c)
  let stripped := if ws.length % 4 == 0 then stripUpTo2Eq ws else ws
  if stripped.length % 4 == 1 then none else atobCore stripped

/-- base64UrlEncode at the character-list level: btoa output with + and
/ replaced by - and _ and trailing padding stripped. -/
def b64UrlEncodeChars (bytes : List Nat) : List Char :=
  dropEq ((btoaBytes bytes).map urlChar)

/-- base64UrlDecode at the character-list level: - and _ replaced back,
padding re-appended, then atob. -/
def b64UrlDecodeChars (cs : List Char) : Option (List Nat) :=
  let std := cs.map stdChar
  let padded := std ++ List.replicate ((4 - std.length % 4) % 4) '='
  atobModel padded

/-- base64UrlEncode from the source. -/
def base64UrlEncode (bytes : List Nat) : String :=
  String.mk (b64UrlEncodeChars bytes)

/-- base64UrlDecode from the source; none models a thrown exception. -/
def base64UrlDecode (s : String) : Option (List Nat) :=
  b64UrlDecodeChars s.data

/-! ## Base64 lemmas -/

theorem b64Val_b64Char : ∀ n, n < 64 → b64Val (b64Char n) = some n := by
  decide

theorem b64Char_mem (n : Nat) : b64Char n ∈ stdChars := by
  unfold b64Char List.getD
  cases h : stdChars.get? n with
  | none => simp [h]; decide
  | some c => simpa [h] using List.get?_mem h

theorem stdChars_ne_eq : ∀ c ∈ stdChars, c ≠ '=' := by decide

theorem stdChars_not_ws : ∀ c ∈ stdChars, isB64Ws c = false := by decide

theorem stdChars_url_ne_eq : ∀ c ∈ stdChars, urlChar c ≠ '=' := by decide

theorem stdChars_url_not_ws : ∀ c ∈ stdChars, isB64Ws (urlChar c) = false := by decide

theorem stdChars_std_url : ∀ c ∈ stdChars, stdChar (urlChar c) = c := by
  decide

theorem btoaBytes_eq (bs : List Nat) :
    btoaBytes bs = btoaBody bs ++ List.replicate (eqCount bs) '=' := by
  induction bs using btoaBody.induct with
  | case1 => rfl
  | case2 a => rfl
  | case3 a b => rfl
  | case4 a b c rest ih =>
    have hcount : eqCount (a :: b :: c :: rest) = eqCount rest := by
      unfold eqCount
      simp only [List.length_cons]
      omega
    simp only [btoaBytes, btoaBody, ih, hcount, List.cons_append]

theorem btoaBody_mem (bs : List Nat) : ∀ c ∈ btoaBody bs, c ∈ stdChars := by
  induction bs using btoaBody.induct with
  | case1 => intro c hc; simp [btoaBody] at hc
  | case2 a =>
    intro c hc
    simp only [btoaBody, List.mem_cons, List.not_mem_nil, or_false] at hc
    rcases hc with h | h <;> (subst h; exact b64Char_mem _)
  | case3 a b =>
    intro c hc
    simp only [btoaBody, List.mem_cons, List.not_mem_nil, or_false] at hc
    rcases hc with h | h | h <;> (subst h; exact b64Char_mem _)
  | case4 a b d rest ih =>
    intro c hc
    simp only [btoaBody, List.mem_cons] at hc
    rcases hc with h | h | h | h | h
    · subst h; exact b64Char_mem _
    · subst h; exact b64Char_mem _
    · subst h; exact b64Char_mem _
    · subst h; exact b64Char_mem _
    · exact ih c h

theorem btoaBody_length (bs : List Nat) :
    ((btoaBody bs).length + eqCount bs) % 4 = 0 ∧ eqCount bs ≤ 2 := by
  induction bs using btoaBody.induct with
  | case1 => simp [btoaBody, eqCount]
  | case2 a => simp [btoaBody, eqCount]
  | case3 a b => simp [btoaBody, eqCount]
  | case4 a b c rest ih =>
    have hcount : eqCount (a :: b :: c :: rest) = eqCount rest := by
      unfold eqCount
      simp only [List.length_cons]
      omega
    simp only [btoaBody, List.length_cons, hcount]
    omega

theorem atobCore_btoaBody (bs : List Nat) (hb : ∀ x ∈ bs, x < 256) :
    atobCore (btoaBody bs) = some bs := by
  induction bs using btoaBody.induct with
  | case1 => rfl
  | case2 a =>
    have ha : a < 256 := hb a (by simp)
    have h1 : a / 4 < 64 := by omega
    have h2 : a % 4 * 16 < 64 := by omega
    simp only [btoaBody, atobCore, b64Val_b64Char _ h1, b64Val_b64Char _ h2,
      Option.some.injEq, List.cons.injEq, and_true]
    omega
  | case3 a b =>
    have ha : a < 256 := hb a (by simp)
    have hbb : b < 256 := hb b (by simp)
    have h1 : a / 4 < 64 := by omega
    have h2 : a % 4 * 16 + b / 16 < 64 := by omega
    have h3 : b % 16 * 4 < 64 := by omega
    simp only [btoaBody, atobCore, b64Val_b64Char _ h1, b64Val_b64Char _ h2,
      b64Val_b64Char _ h3, Option.some.injEq, List.cons.injEq, and_true]
    constructor <;> omega
  | case4 a b c rest ih =>
    have ha : a < 256 := hb a (by simp)
    have hbb : b < 256 := hb b (by simp)
    have hc : c < 256 := hb c (by simp)
    have hrest : ∀ x ∈ rest, x < 256 := fun x hx => hb x (by simp [hx])
    have h1 : a / 4 < 64 := by omega
    have h2 : a % 4 * 16 + b / 16 < 64 := by omega
    have h3 : b % 16 * 4 + c / 64 < 64 := by omega
    have h4 : c % 64 < 64 := by omega
    have harm : ∀ x1 x2 x3 x4 xr,
        atobCore (x1 :: x2 :: x3 :: x4 :: xr) =
          match b64Val x1, b64Val x2, b64Val x3, b64Val x4, atobCore xr with
          | some v1, some v2, some v3, some v4, some tail =>
            some ([v1 * 4 + v2 / 16, v2 % 16 * 16 + v3 / 4, v3 % 4 * 64 + v4] ++ tail)
          | _, _, _, _, _ => none := fun _ _ _ _ _ => rfl
    rw [btoaBody, harm, b64Val_b64Char _ h1, b64Val_b64Char _ h2,
      b64Val_b64Char _ h3, b64Val_b64Char _ h4, ih hrest]
    simp only [List.cons_append, List.nil_append, Option.some.injEq, List.cons.injEq]
    exact ⟨by omega, by omega, by omega, trivial⟩

theorem dropWhile_eq_of_ne (p : Char → Bool) (xs : List Char)
    (h : ∀ c ∈ xs, p c = false) : xs.dropWhile p = xs := by
  cases xs with
  | nil => rfl
  | cons c rest => rw [List.dropWhile_cons_of_neg (by simp [h c (by simp)])]

theorem dropEq_append (xs : List Char) (k : Nat) (h : ∀ c ∈ xs, c ≠ '=') :
    dropEq (xs ++ List.replicate k '=') = xs := by
  unfold dropEq
  rw [List.reverse_append, List.reverse_replicate]
  have hrep : ∀ m, List.dropWhile (fun c => c == '=') (List.replicate m '=' ++ xs.reverse) =
      List.dropWhile (fun c => c == '=') xs.reverse := by
    intro m
    induction m with
    | zero => simp
    | succ m ihm =>
      simp only [List.replicate_succ, List.cons_append, List.dropWhile_cons,
        beq_self_eq_true, if_true]
      exact ihm
  rw [hrep, dropWhile_eq_of_ne _ _ (fun c hc => by
    simpa using h c (List.mem_reverse.mp hc)), List.reverse_reverse]

theorem encode_eq_body (bs : List Nat) :
    b64UrlEncodeChars bs = (btoaBody bs).map urlChar := by
  unfold b64UrlEncodeChars
  rw [btoaBytes_eq, List.map_append, List.map_replicate]
  have hrep : urlChar '=' = '=' := by decide
  rw [hrep, dropEq_append]
  intro c hc
  rcases List.mem_map.mp hc with ⟨c0, hc0, rfl⟩
  exact stdChars_url_ne_eq c0 (btoaBody_mem bs c0 hc0)

theorem getLast?_ne_eq (xs : List Char) (hx : ∀ c ∈ xs, c ≠ '=') :
    ¬ xs.getLast? = some '=' := by
  intro h
  have hm : '=' ∈ xs.getLast? := Option.mem_def.mpr h
  rcases List.mem_getLast?_eq_getLast hm with ⟨hne, heq⟩
  exact hx _ (by rw [heq]; exact List.getLast_mem hne) rfl

theorem stripUpTo2Eq_append (xs : List Char) (k : Nat) (hx : ∀ c ∈ xs, c ≠ '=')
    (hk : k ≤ 2) : stripUpTo2Eq (xs ++ List.replicate k '=') = xs := by
  unfold stripUpTo2Eq
  interval_cases k
  · simp only [List.replicate_zero, List.append_nil]
    rw [if_neg (getLast?_ne_eq xs hx)]
  · have h1 : xs ++ List.replicate 1 '=' = xs ++ ['='] := rfl
    rw [h1, List.getLast?_concat, List.dropLast_concat]
    rw [if_pos rfl, if_neg (getLast?_ne_eq xs hx)]
  · have h2 : xs ++ List.replicate 2 '=' = (xs ++ ['=']) ++ ['='] := by simp
    rw [h2, List.getLast?_concat, List.dropLast_concat, List.getLast?_concat,
      List.dropLast_concat]
    simp

theorem map_id_of (f : Char → Char) (l : List Char) (h : ∀ c ∈ l, f c = c) :
    l.map f = l := by
  induction l with
  | nil => rfl
  | cons c rest ih =>
    rw [List.map_cons, h c (by simp), ih (fun x hx => h x (by simp [hx]))]

theorem b64UrlDecodeChars_encode (bs : List Nat) (hb : ∀ x ∈ bs, x < 256) :
    b64UrlDecodeChars (b64UrlEncodeChars bs) = some bs := by
  have hbody := btoaBody_mem bs
  have hlen := (btoaBody_length bs).1
  have hk2 := (btoaBody_length bs).2
  rw [encode_eq_body]
  unfold b64UrlDecodeChars
  have hmap : ((btoaBody bs).map urlChar).map stdChar = btoaBody bs := by
    rw [List.map_map]
    exact map_id_of _ _ (fun c hc => stdChars_std_url c (hbody c hc))
  simp only [hmap, List.length_map]
  have hpad : (4 - (btoaBody bs).length % 4) % 4 = eqCount bs := by omega
  rw [hpad]
  unfold atobModel
  have hfil : (btoaBody bs ++ List.replicate (eqCount bs) '=').filter
      (fun c => !isB64Ws c) = btoaBody bs ++ List.replicate (eqCount bs) '=' := by
    rw [List.filter_eq_self]
    intro c hc
    rcases List.mem_append.mp hc with hc | hc
    · simp [stdChars_not_ws c (hbody c hc)]
    · rw [List.eq_of_mem_replicate hc]
      decide
  simp only [hfil, List.length_append, List.length_replicate]
  have hmod : (((btoaBody bs).length + eqCount bs) % 4 == 0) = true := by
    simp only [beq_iff_eq]
    omega
  rw [hmod, if_pos rfl]
  rw [stripUpTo2Eq_append _ _ (fun c hc => stdChars_ne_eq c (hbody c hc)) hk2]
  have hne1 : ((btoaBody bs).length % 4 == 1) = false := by
    simp only [beq_eq_false_iff_ne, ne_eq]
    omega
  rw [hne1, if_neg (by simp)]
  exact atobCore_btoaBody bs hb

/-- Characters that base64UrlEncode can emit: the images of the
standard alphabet under the url-safe replacement. -/
theorem encode_chars (bs : List Nat) :
    ∀ c ∈ b64UrlEncodeChars bs, c ∈ stdChars.map urlChar := by
  intro c hc
  rw [encode_eq_body] at hc
  rcases List.mem_map.mp hc with ⟨c0, hc0, rfl⟩
  exact List.mem_map.mpr ⟨c0, btoaBody_mem bs c0 hc0, rfl⟩

/-! ## VAPID signer (models createVapidJwt) -/

/-- Hex digit character, lower case. -/
def hexDigit (n : Nat) : Char := "0123456789abcdef".data.getD n '0'

/-- Escape of one character inside a JSON string literal, as performed
by JSON.stringify. -/
def jsonEscapeChar (c : Char) : List Char :=
  if c = '"' then ['\\', '"']
  else if c = '\\' then ['\\', '\\']
  else if c = '\x08' then ['\\', 'b']
  else if c = '\x09' then ['\\', 't']
  else if c = '\x0a' then ['\\', 'n']
  else if c = '\x0c' then ['\\', 'f']
  else if c = '\x0d' then ['\\', 'r']
  else if c.toNat < 32 then
    ['\\', 'u', '0', '0', hexDigit (c.toNat / 16), hexDigit (c.toNat % 16)]
  else [c]

/-- JSON.stringify of a string value. -/
def jsonStr (s : String) : String :=
  String.mk ('"' :: (s.data.flatMap jsonEscapeChar ++ ['"']))

/-- JSON.stringify of the JWT header object built in createVapidJwt,
with its insertion order typ then alg. -/
def vapidHeaderJson : String := "\x7b\"typ\":\"JWT\",\"alg\":\"ES256\"\x7d"

/-- JSON.stringify of the JWT claims object built in createVapidJwt,
with its insertion order aud, exp, sub, and exp = now + 12 * 3600. -/
def vapidClaimsJson (audience subject : String) (now : Nat) : String :=
  "\x7b\"aud\":" ++ jsonStr audience ++ ",\"exp\":" ++ toString (now + 12 * 3600) ++
    ",\"sub\":" ++ jsonStr subject ++ "\x7d"

/-- The unsigned part of the token: base64url header, a dot, base64url
claims. -/
def vapidUnsignedToken (audience subject : String) (now : Nat) : String :=
  base64UrlEncode (utf8 vapidHeaderJson) ++ "." ++
    base64UrlEncode (utf8 (vapidClaimsJson audience subject now))

/-- createVapidJwt from the source, as a function of the invocation
time now (Date.now() / 1000 rounded down) and of the platform ECDSA
P-256 / SHA-256 signer, abstracted as a function of the private key,
the public key, and the message bytes (its key-import step consumes
exactly those two key strings). Returns (authorization, cryptoKey). -/
def createVapidJwt (sign : String → String → List Nat → List Nat)
    (audience subject publicKey privateKey : String) (now : Nat) : String × String :=
  let unsignedToken := vapidUnsignedToken audience subject now
  let signature := sign privateKey publicKey (utf8 unsignedToken)
  let token := unsignedToken ++ "." ++ base64UrlEncode signature
  ("vapid t=" ++ token ++ ", k=" ++ publicKey, publicKey)

/-! ## Message encryptor (models hkdf, createInfo, encryptPayload) -/

/-- The platform Web Crypto primitives used by the encryptor, abstracted
with their interface guarantees: HMAC-SHA-256 produces 32 bytes, and
AES-GCM encryption returns the ciphertext (same length as the
plaintext) followed by a 16-byte authentication tag. -/
structure WebCrypto where
  hmacSha256 : List Nat → List Nat → List Nat
  hmac_length : ∀ key data, (hmacSha256 key data).length = 32
  aesGcmCiphertext : List Nat → List Nat → List Nat → List Nat
  aesGcmTag : List Nat → List Nat → List Nat → List Nat
  aesGcmCiphertext_length : ∀ key iv plain, (aesGcmCiphertext key iv plain).length = plain.length
  aesGcmTag_length : ∀ key iv plain, (aesGcmTag key iv plain).length = 16

/-- hkdf from the source: one extract-style HMAC of the salt keyed by
the input key material, then one expand-style HMAC of info followed by
the byte 1, truncated to the requested length. -/
def hkdf (W : WebCrypto) (salt ikm info : List Nat) (length : Nat) : List Nat :=
  let prk := W.hmacSha256 ikm salt
  (W.hmacSha256 prk (info ++ [1])).take length

/-- createInfo from the source: the Content-Encoding header text, the
coding label, a zero byte, the bytes 0 0 0 65 before the client public
key and the bytes 0 65 before the server public key. -/
def createInfo (type : String) (clientPublicKey serverPublicKey : List Nat) : List Nat :=
  utf8 "Content-Encoding: " ++ utf8 type ++ [0] ++
    ([0, 0, 0, 65] ++ clientPublicKey) ++ ([0, 65] ++ serverPublicKey)

/-- All intermediate values of one run of encryptPayload. -/
structure EncryptResult where
  prk : List Nat
  contentKey : List Nat
  nonce : List Nat
  padded : List Nat
  encrypted : List Nat
  serverPublicKey : List Nat
  salt : List Nat

/-- The body of encryptPayload after the two base64url decodes, as a
function of the values the platform supplies nondeterministically: the
ECDH shared secret, the raw ephemeral server public key, and the random
16-byte salt. -/
def encryptPayloadWith (W : WebCrypto) (sharedSecret serverPublicKeyRaw salt : List Nat)
    (clientPublicKeyBytes clientAuthBytes : List Nat) (payload : String) : EncryptResult :=
  let payloadBytes := utf8 payload
  let authInfo := utf8 "Content-Encoding: auth\x00"
  let prk := hkdf W clientAuthBytes sharedSecret authInfo 32
  let contentKeyInfo := createInfo "aesgcm" clientPublicKeyBytes serverPublicKeyRaw
  let contentKey := hkdf W salt prk contentKeyInfo 16
  let nonceInfo := createInfo "nonce" clientPublicKeyBytes serverPublicKeyRaw
  let nonce := hkdf W salt prk nonceInfo 12
  let paddingLength := 0
  let padded := [paddingLength / 256 % 256, paddingLength % 256] ++ payloadBytes
  let encrypted :=
    W.aesGcmCiphertext contentKey nonce padded ++ W.aesGcmTag contentKey nonce padded
  ⟨prk, contentKey, nonce, padded, encrypted, serverPublicKeyRaw, salt⟩

/-- encryptPayload from the source; none models a thrown exception from
an undecodable subscription key. -/
def encryptPayload (W : WebCrypto) (sharedSecret serverPublicKeyRaw salt : List Nat)
    (clientPublicKeyBase64 clientAuthBase64 : String) (payload : String) :
    Option EncryptResult :=
  match base64UrlDecode clientPublicKeyBase64, base64UrlDecode clientAuthBase64 with
  | some clientPublicKeyBytes, some clientAuthBytes =>
    some (encryptPayloadWith W sharedSecret serverPublicKeyRaw salt
      clientPublicKeyBytes clientAuthBytes payload)
  | _, _ => none

/-! ## Delivery audience (models sendWebPush's audience computation) -/

/-- The components of a parsed URL as the platform URL class exposes
them: protocol keeps its trailing colon, host is hostname plus any
port, pathname, search and hash carry the rest. -/
structure UrlParts where
  protocol : String
  host : String
  pathname : String
  search : String
  hash : String

/-- The audience computed in sendWebPush: protocol, two slashes, host. -/
def audienceOf (endpoint : UrlParts) : String :=
  endpoint.protocol ++ "//" ++ endpoint.host

/-! ## Eligibility engine and orchestrator (models the serve handler) -/

/-- One row of the push_subscriptions table, as selected by the
handler; timezone is a nullable text column. -/
structure Sub where
  user_id : String
  endpoint : String
  p256dh : String
  auth : String
  timezone : Option String
deriving DecidableEq

/-- The Intl time-zone state at the fixed invocation instant: a valid
zone name resolves to the local hour (as parsed from the formatted
hour string) and the local date string, an invalid one to none; utcDate
is the UTC calendar date new Date().toISOString().split("T")[0]. -/
structure Clock where
  zones : String → Option (Int × String)
  utcDate : String

/-- The read-only store state: the (user_id, date) pairs of the entries
table, and the per-date outcome of the entries query (some message
models a query error for that date). -/
structure Store where
  entriesTable : List (String × String)
  entriesError : String → Option String

/-- REMINDER_HOUR from the source. -/
def REMINDER_HOUR : Int := 19

/-- The JavaScript expression sub.timezone or-else "UTC": null and the
empty string are falsy and default to UTC. -/
def tzOf : Option String → String
  | none => "UTC"
  | some tz => if tz = "" then "UTC" else tz

/-- getLocalDate from the source: the formatted local date for a valid
zone, the UTC date when the zone throws. -/
def getLocalDate (clock : Clock) (timezone : String) : String :=
  match clock.zones timezone with
  | some zi => zi.2
  | none => clock.utcDate

/-- getLocalHour from the source: the parsed local hour for a valid
zone, the sentinel -1 when the zone throws. -/
def getLocalHour (clock : Clock) (timezone : String) : Int :=
  match clock.zones timezone with
  | some zi => zi.1
  | none => -1

/-- The eligibleSubs filter: keep subscriptions whose local hour equals
REMINDER_HOUR. -/
def eligibleSubs (clock : Clock) (subs : List Sub) : List Sub :=
  subs.filter (fun sub => getLocalHour clock (tzOf sub.timezone) == REMINDER_HOUR)

/-- One step of the subsByLocalDate map: push sub onto the group keyed
by date, creating the group at the end on first occurrence (JavaScript
Map preserves insertion order). -/
def insertGroup (acc : List (String × List Sub)) (date : String) (sub : Sub) :
    List (String × List Sub) :=
  match acc with
  | [] => [(date, [sub])]
  | (key, group) :: rest =>
    if key = date then (key, group ++ [sub]) :: rest
    else (key, group) :: insertGroup rest date sub

/-- The subsByLocalDate grouping loop over the eligible subscriptions. -/
def groupByDate (clock : Clock) (subs : List Sub) : List (String × List Sub) :=
  subs.foldl (fun acc sub => insertGroup acc (getLocalDate clock (tzOf sub.timezone)) sub) []

/-- The entries query for one local date: select user_id from entries
where date equals localDate and user_id is in userIds; error models a
failed query. -/
def entriesQuery (store : Store) (date : String) (userIds : List String) :
    Except String (List String) :=
  match store.entriesError date with
  | some e => .error e
  | none =>
    .ok ((store.entriesTable.filter
      (fun row => row.2 == date && userIds.contains row.1)).map (fun row => row.1))

/-- The per-date loop building usersToNotify: for each date group, drop
the users that already have an entry; a failed entries query aborts the
invocation. -/
def collectNotify (store : Store) : List (String × List Sub) → Except String (List Sub)
  | [] => .ok []
  | (date, group) :: rest =>
    match entriesQuery store date (group.map (fun s => s.user_id)) with
    | .error e => .error e
    | .ok usersWithEntries =>
      match collectNotify store rest with
      | .error e => .error e
      | .ok tail =>
        .ok ((group.filter (fun sub => !usersWithEntries.contains sub.user_id)) ++ tail)

/-- The complete eligibility computation of one invocation: hour
filter, grouping by local date, and removal of already-logged users. -/
def usersToNotify (clock : Clock) (store : Store) (subs : List Sub) :
    Except String (List Sub) :=
  collectNotify store (groupByDate clock (eligibleSubs clock subs))

/-- Outcome of one sendWebPush call, as decided by the environment:
either a fault at one of its steps (all caught inside sendWebPush) or
an HTTP response with a status code. -/
inductive PushResult
  | keyImportOrSignError
  | encryptError
  | networkError
  | response (status : Nat)
deriving DecidableEq

/-- sendWebPush never throws: a fault at any step or a non-2xx response
gives false, an ok response gives true. -/
def sendWebPush (push : Sub → PushResult) (sub : Sub) : Bool :=
  match push sub with
  | .response status => decide (200 ≤ status ∧ status ≤ 299)
  | _ => false

/-- The body of the JSON response of one invocation. -/
inductive RespBody
  | msg (message : String)
  | summary (message : String) (results : List (String × Bool))
  | err (error : String)
deriving DecidableEq

/-- The serve handler: status code and response body of one invocation,
given the subscriptions query result and the per-recipient delivery
outcomes. -/
def handler (clock : Clock) (store : Store) (subsResult : Except String (List Sub))
    (push : Sub → PushResult) : Nat × RespBody :=
  match subsResult with
  | .error e => (500, .err e)
  | .ok subscriptions =>
    if subscriptions.length = 0 then (200, .msg "No subscriptions found")
    else if (eligibleSubs clock subscriptions).length = 0 then
      (200, .msg "No users in the 7 PM hour right now")
    else
      match usersToNotify clock store subscriptions with
      | .error e => (500, .err e)
      | .ok toNotify =>
        let results := toNotify.map (fun sub => (sub.user_id, sendWebPush push sub))
        (200, .summary
          ("Sent " ++ toString (results.filter (fun r => r.2)).length ++ "/" ++
            toString toNotify.length ++ " reminders")
          results)

/-! ## Eligibility lemmas -/

/-- All subscriptions stored in a group list. -/
def groupsFlat (G : List (String × List Sub)) : List Sub :=
  G.flatMap (fun p => p.2)

theorem groupsFlat_insertGroup (acc : List (String × List Sub)) (date : String) (s : Sub) :
    ∀ t, t ∈ groupsFlat (insertGroup acc date s) ↔ t ∈ groupsFlat acc ∨ t = s := by
  induction acc with
  | nil => intro t; simp [insertGroup, groupsFlat]
  | cons p rest ih =>
    intro t
    obtain ⟨key, group⟩ := p
    unfold insertGroup
    by_cases hk : key = date
    · simp only [if_pos hk, groupsFlat, List.flatMap_cons, List.mem_append,
        List.mem_singleton]
      tauto
    · simp only [if_neg hk, groupsFlat, List.flatMap_cons, List.mem_append]
      have hih := ih t
      unfold groupsFlat at hih
      tauto

theorem key_insertGroup (P : String → Sub → Prop) (acc : List (String × List Sub))
    (date : String) (s : Sub)
    (hacc : ∀ d gs, (d, gs) ∈ acc → ∀ t ∈ gs, P d t) (hs : P date s) :
    ∀ d gs, (d, gs) ∈ insertGroup acc date s → ∀ t ∈ gs, P d t := by
  induction acc with
  | nil =>
    intro d gs hmem t ht
    simp only [insertGroup, List.mem_singleton, Prod.mk.injEq] at hmem
    obtain ⟨rfl, rfl⟩ := hmem
    simp only [List.mem_singleton] at ht
    subst ht
    exact hs
  | cons p rest ih =>
    obtain ⟨key, group⟩ := p
    intro d gs hmem t ht
    unfold insertGroup at hmem
    by_cases hk : key = date
    · rw [if_pos hk] at hmem
      rcases List.mem_cons.mp hmem with heq | hmem
      · have h1 : d = key := congrArg Prod.fst heq
        have h2 : gs = group ++ [s] := congrArg Prod.snd heq
        rw [h2] at ht
        rcases List.mem_append.mp ht with ht | ht
        · rw [h1]
          exact hacc key group (List.mem_cons_self _ _) t ht
        · simp only [List.mem_singleton] at ht
          subst ht
          rw [h1, hk]
          exact hs
      · exact hacc d gs (List.mem_cons_of_mem _ hmem) t ht
    · rw [if_neg hk] at hmem
      rcases List.mem_cons.mp hmem with heq | hmem
      · have h1 : d = key := congrArg Prod.fst heq
        have h2 : gs = group := congrArg Prod.snd heq
        rw [h1]
        exact hacc key group (List.mem_cons_self _ _) t (h2 ▸ ht)
      · exact ih (fun d gs h => hacc d gs (List.mem_cons_of_mem _ h)) d gs hmem t ht

theorem groupByDate_mem_aux (clock : Clock) (subs : List Sub) :
    ∀ (acc : List (String × List Sub)) (t : Sub),
      t ∈ groupsFlat (subs.foldl
        (fun acc sub => insertGroup acc (getLocalDate clock (tzOf sub.timezone)) sub) acc) ↔
      t ∈ groupsFlat acc ∨ t ∈ subs := by
  induction subs with
  | nil => intro acc t; simp
  | cons s rest ih =>
    intro acc t
    rw [List.foldl_cons, ih, groupsFlat_insertGroup]
    simp only [List.mem_cons]
    tauto

theorem groupByDate_mem (clock : Clock) (subs : List Sub) (t : Sub) :
    t ∈ groupsFlat (groupByDate clock subs) ↔ t ∈ subs := by
  have h := groupByDate_mem_aux clock subs [] t
  simpa [groupByDate, groupsFlat] using h

theorem groupByDate_key_aux (clock : Clock) (subs : List Sub) :
    ∀ (acc : List (String × List Sub)),
      (∀ d gs, (d, gs) ∈ acc → ∀ t ∈ gs, getLocalDate clock (tzOf t.timezone) = d) →
      ∀ d gs, (d, gs) ∈ subs.foldl
        (fun acc sub => insertGroup acc (getLocalDate clock (tzOf sub.timezone)) sub) acc →
      ∀ t ∈ gs, getLocalDate clock (tzOf t.timezone) = d := by
  induction subs with
  | nil => intro acc hacc; exact hacc
  | cons s rest ih =>
    intro acc hacc
    rw [List.foldl_cons]
    exact ih _ (key_insertGroup _ _ _ _ hacc rfl)

theorem groupByDate_key (clock : Clock) (subs : List Sub) :
    ∀ d gs, (d, gs) ∈ groupByDate clock subs →
    ∀ t ∈ gs, getLocalDate clock (tzOf t.timezone) = d := by
  exact groupByDate_key_aux clock subs [] (by simp)

theorem contains_iff_mem {α : Type} [BEq α] [LawfulBEq α] (l : List α) (a : α) :
    l.contains a = true ↔ a ∈ l := List.elem_iff

theorem contains_eq_false_iff {α : Type} [BEq α] [LawfulBEq α] (l : List α) (a : α) :
    l.contains a = false ↔ a ∉ l := by
  rw [← contains_iff_mem l a]
  cases l.contains a <;> simp

theorem entriesQuery_ok_mem (store : Store) (date : String) (userIds : List String)
    (uids : List String) (h : entriesQuery store date userIds = .ok uids) :
    ∀ uid, uid ∈ uids ↔ (uid, date) ∈ store.entriesTable ∧ uid ∈ userIds := by
  unfold entriesQuery at h
  cases he : store.entriesError date with
  | some e => rw [he] at h; simp at h
  | none =>
    rw [he] at h
    simp only [Except.ok.injEq] at h
    subst h
    intro uid
    simp only [List.mem_map, List.mem_filter]
    constructor
    · rintro ⟨row, ⟨hrow, hcond⟩, rfl⟩
      simp only [Bool.and_eq_true, beq_iff_eq] at hcond
      refine ⟨?_, (contains_iff_mem _ _).mp hcond.2⟩
      have hr : row = (row.1, date) := by
        rw [← hcond.1]
      rw [← hr]
      exact hrow
    · rintro ⟨hmem, huid⟩
      refine ⟨(uid, date), ⟨hmem, ?_⟩, rfl⟩
      simp only [Bool.and_eq_true, beq_iff_eq]
      exact ⟨by simp, (contains_iff_mem _ _).mpr huid⟩

theorem collectNotify_mem (store : Store) :
    ∀ (G : List (String × List Sub)) (l : List Sub), collectNotify store G = .ok l →
    ∀ t, t ∈ l ↔ ∃ d gs, (d, gs) ∈ G ∧ t ∈ gs ∧ (t.user_id, d) ∉ store.entriesTable := by
  intro G
  induction G with
  | nil =>
    intro l hok t
    simp only [collectNotify, Except.ok.injEq] at hok
    subst hok
    simp
  | cons p rest ih =>
    obtain ⟨date, group⟩ := p
    intro l hok t
    unfold collectNotify at hok
    cases hq : entriesQuery store date (group.map (fun s => s.user_id)) with
    | error e => rw [hq] at hok; simp at hok
    | ok uids =>
      rw [hq] at hok
      cases hr : collectNotify store rest with
      | error e => rw [hr] at hok; simp at hok
      | ok tail =>
        rw [hr] at hok
        simp only [Except.ok.injEq] at hok
        subst hok
        have hq2 := entriesQuery_ok_mem store date _ uids hq
        have hih := ih tail hr t
        simp only [List.mem_append, List.mem_filter, Bool.not_eq_true']
        constructor
        · rintro (⟨htg, hnc⟩ | htail)
          · refine ⟨date, group, List.mem_cons_self _ _, htg, ?_⟩
            intro habs
            have hin : t.user_id ∈ uids :=
              (hq2 t.user_id).mpr ⟨habs, List.mem_map.mpr ⟨t, htg, rfl⟩⟩
            exact (contains_eq_false_iff uids t.user_id).mp hnc hin
          · rcases hih.mp htail with ⟨d, gs, hmem, htg2, hnot⟩
            exact ⟨d, gs, List.mem_cons_of_mem _ hmem, htg2, hnot⟩
        · rintro ⟨d, gs, hmem, htg, hnot⟩
          rcases List.mem_cons.mp hmem with heq | hmem2
          · have h1 : d = date := congrArg Prod.fst heq
            have h2 : gs = group := congrArg Prod.snd heq
            rw [h1] at hnot
            rw [h2] at htg
            left
            refine ⟨htg, ?_⟩
            rw [contains_eq_false_iff]
            intro hc
            exact hnot ((hq2 t.user_id).mp hc).1
          · right
            exact hih.mpr ⟨d, gs, hmem2, htg, hnot⟩

theorem collectNotify_error (store : Store) :
    ∀ (G : List (String × List Sub)) (e : String), collectNotify store G = .error e →
    ∃ d, store.entriesError d = some e := by
  intro G
  induction G with
  | nil => intro e h; simp [collectNotify] at h
  | cons p rest ih =>
    obtain ⟨date, group⟩ := p
    intro e h
    unfold collectNotify at h
    cases hq : entriesQuery store date (group.map (fun s => s.user_id)) with
    | error e2 =>
      rw [hq] at h
      simp only [Except.error.injEq] at h
      subst h
      unfold entriesQuery at hq
      cases he : store.entriesError date with
      | some e3 => rw [he] at hq; simp only [Except.error.injEq] at hq; exact ⟨date, hq ▸ he⟩
      | none => rw [he] at hq; simp at hq
    | ok uids =>
      rw [hq] at h
      cases hr : collectNotify store rest with
      | error e2 =>
        rw [hr] at h
        simp only [Except.error.injEq] at h
        subst h
        exact ih e2 hr
      | ok tail => rw [hr] at h; simp at h

/-- Membership in the eligible list. -/
theorem eligibleSubs_mem (clock : Clock) (subs : List Sub) (t : Sub) :
    t ∈ eligibleSubs clock subs ↔
    t ∈ subs ∧ getLocalHour clock (tzOf t.timezone) = REMINDER_HOUR := by
  simp [eligibleSubs, List.mem_filter]

/-- Membership in the final notification list. -/
theorem usersToNotify_mem (clock : Clock) (store : Store) (subs : List Sub)
    (l : List Sub) (hok : usersToNotify clock store subs = .ok l) (t : Sub) :
    t ∈ l ↔ t ∈ subs ∧ getLocalHour clock (tzOf t.timezone) = REMINDER_HOUR ∧
      (t.user_id, getLocalDate clock (tzOf t.timezone)) ∉ store.entriesTable := by
  unfold usersToNotify at hok
  rw [collectNotify_mem store _ l hok t]
  constructor
  · rintro ⟨d, gs, hmem, htg, hnot⟩
    have hd := groupByDate_key clock _ d gs hmem t htg
    have helig : t ∈ eligibleSubs clock subs :=
      (groupByDate_mem clock _ t).mp (List.mem_flatMap.mpr ⟨(d, gs), hmem, htg⟩)
    rcases (eligibleSubs_mem clock subs t).mp helig with ⟨hsub, hhour⟩
    exact ⟨hsub, hhour, hd ▸ hnot⟩
  · rintro ⟨hsub, hhour, hnot⟩
    have helig : t ∈ eligibleSubs clock subs :=
      (eligibleSubs_mem clock subs t).mpr ⟨hsub, hhour⟩
    rcases List.mem_flatMap.mp ((groupByDate_mem clock _ t).mpr helig) with ⟨⟨d, gs⟩, hmem, htg⟩
    have hd := groupByDate_key clock _ d gs hmem t htg
    exact ⟨d, gs, hmem, htg, hd ▸ hnot⟩

/-! ## Handler lemmas -/

theorem handler_status_push (clock : Clock) (store : Store)
    (subsResult : Except String (List Sub)) (push push2 : Sub → PushResult) :
    (handler clock store subsResult push).1 = (handler clock store subsResult push2).1 := by
  cases subsResult with
  | error e => rfl
  | ok subs =>
    simp only [handler]
    by_cases h0 : subs.length = 0
    · rw [if_pos h0, if_pos h0]
    · rw [if_neg h0, if_neg h0]
      by_cases h1 : (eligibleSubs clock subs).length = 0
      · rw [if_pos h1, if_pos h1]
      · rw [if_neg h1, if_neg h1]
        cases hc : usersToNotify clock store subs with
        | error e => rfl
        | ok toNotify => rfl

theorem handler_error_source (clock : Clock) (store : Store)
    (subsResult : Except String (List Sub)) (push : Sub → PushResult)
    (h : (handler clock store subsResult push).1 ≠ 200) :
    (∃ e, subsResult = .error e) ∨ (∃ d e, store.entriesError d = some e) := by
  cases subsResult with
  | error e => exact Or.inl ⟨e, rfl⟩
  | ok subs =>
    right
    simp only [handler] at h
    by_cases h0 : subs.length = 0
    · rw [if_pos h0] at h
      exact absurd rfl h
    · rw [if_neg h0] at h
      by_cases h1 : (eligibleSubs clock subs).length = 0
      · rw [if_pos h1] at h
        exact absurd rfl h
      · rw [if_neg h1] at h
        cases hc : usersToNotify clock store subs with
        | error e =>
          unfold usersToNotify at hc
          rcases collectNotify_error store _ e hc with ⟨d, hd⟩
          exact ⟨d, e, hd⟩
        | ok toNotify =>
          rw [hc] at h
          exact absurd rfl h

/-! ## Witness fixtures -/

/-- A concrete time-zone state: 19:00 in UTC, 15:00 in New York. -/
def wClock : Clock :=
  ⟨fun z =>
    if z = "UTC" then some (19, "2026-10-11")
    else if z = "America/New_York" then some (15, "2026-10-11")
    else none,
   "2026-10-11"⟩

/-- A subscriber in New York. -/
def wSubA : Sub :=
  ⟨"alice", "https://push.example.net/a", "pkA", "authA", some "America/New_York"⟩

/-- A subscriber with no stored time zone. -/
def wSubB : Sub := ⟨"bob", "https://push.example.net/b", "pkB", "authB", none⟩

/-- A subscriber with an unresolvable time zone. -/
def wSubC : Sub := ⟨"carol", "https://push.example.net/c", "pkC", "authC", some "Not/AZone"⟩

/-- A store where alice has already logged today and no query fails. -/
def wStore : Store := ⟨[("alice", "2026-10-11")], fun _ => none⟩

/-- A delivery environment where only bob's endpoint accepts. -/
def wPush : Sub → PushResult :=
  fun s => if s = wSubB then .response 201 else .response 410

/-- Same as wPush except bob's delivery hits a network error. -/
def wPush2 : Sub → PushResult :=
  fun s => if s = wSubB then .networkError else .response 410

/-- Degenerate but interface-respecting crypto primitives. -/
def trivialCrypto : WebCrypto where
  hmacSha256 := fun _ _ => List.replicate 32 0
  hmac_length := fun _ _ => by simp
  aesGcmCiphertext := fun _ _ plain => plain
  aesGcmTag := fun _ _ _ => List.replicate 16 0
  aesGcmCiphertext_length := fun _ _ _ => rfl
  aesGcmTag_length := fun _ _ _ => by simp

/-- A 65-byte client public key. -/
def wCpk : List Nat := List.replicate 65 2

/-- A 65-byte server public key. -/
def wSpk : List Nat := List.replicate 65 3

/-- A parsed https endpoint URL. -/
def wUrl : UrlParts := ⟨"https:", "push.example.net", "/send/abc", "?x=1", "#f"⟩

/-! ## Claims -/

/-- C1: for a fixed invocation instant (the Clock) and a fixed store state, a
subscription in the list is among the recipients the dispatcher attempts to
notify if and only if the current local hour in its zone (defaulting to UTC
when the timezone field is absent) equals the reminder hour 19 and no entries
row exists for its user_id and its local calendar date. -/
theorem c1_recipient_iff (clock : Clock) (store : Store) (subs : List Sub)
    (l : List Sub) (s : Sub) (hok : usersToNotify clock store subs = .ok l)
    (hs : s ∈ subs) :
    s ∈ l ↔ (getLocalHour clock (tzOf s.timezone) = 19 ∧
      (s.user_id, getLocalDate clock (tzOf s.timezone)) ∉ store.entriesTable) := by
  rw [usersToNotify_mem clock store subs l hok s]
  constructor
  · rintro ⟨_, h2, h3⟩
    exact ⟨h2, h3⟩
  · rintro ⟨h2, h3⟩
    exact ⟨hs, h2, h3⟩

/-- Witness for C1 at a concrete clock, store and subscription list. -/
theorem c1_recipient_iff_witness :
    usersToNotify wClock wStore [wSubA, wSubB] = .ok [wSubB] ∧
    wSubB ∈ [wSubA, wSubB] ∧
    (wSubB ∈ [wSubB] ↔ (getLocalHour wClock (tzOf wSubB.timezone) = 19 ∧
      (wSubB.user_id, getLocalDate wClock (tzOf wSubB.timezone)) ∉ wStore.entriesTable)) :=
  ⟨rfl, by decide,
   c1_recipient_iff wClock wStore [wSubA, wSubB] [wSubB] wSubB rfl (by decide)⟩

/-- C2: a subscription whose stored non-empty zone string does not resolve
gets the sentinel -1 as local hour and the UTC calendar date as local date,
and it never appears in the eligible set nor among the notified recipients. -/
theorem c2_invalid_zone (clock : Clock) (store : Store) (subs : List Sub)
    (s : Sub) (tz : String) (h1 : s.timezone = some tz) (h2 : tz ≠ "")
    (h3 : clock.zones tz = none) :
    getLocalHour clock tz = -1 ∧ getLocalDate clock tz = clock.utcDate ∧
    s ∉ eligibleSubs clock subs ∧
    ∀ l, usersToNotify clock store subs = .ok l → s ∉ l := by
  have htz : tzOf s.timezone = tz := by
    rw [h1]
    simp [tzOf, h2]
  have hh : getLocalHour clock tz = -1 := by
    unfold getLocalHour
    rw [h3]
  have hd : getLocalDate clock tz = clock.utcDate := by
    unfold getLocalDate
    rw [h3]
  refine ⟨hh, hd, ?_, ?_⟩
  · intro habs
    rcases (eligibleSubs_mem clock subs s).mp habs with ⟨_, hhour⟩
    rw [htz, hh] at hhour
    exact absurd hhour (by decide)
  · intro l hok habs
    rcases (usersToNotify_mem clock store subs l hok s).mp habs with ⟨_, hhour, _⟩
    rw [htz, hh] at hhour
    exact absurd hhour (by decide)

/-- Witness for C2 at a concrete unresolvable zone. -/
theorem c2_invalid_zone_witness :
    wSubC.timezone = some "Not/AZone" ∧ "Not/AZone" ≠ "" ∧
    wClock.zones "Not/AZone" = none ∧
    (getLocalHour wClock "Not/AZone" = -1 ∧
     getLocalDate wClock "Not/AZone" = wClock.utcDate ∧
     wSubC ∉ eligibleSubs wClock [wSubC] ∧
     ∀ l, usersToNotify wClock wStore [wSubC] = .ok l → wSubC ∉ l) :=
  ⟨rfl, by decide, rfl,
   c2_invalid_zone wClock wStore [wSubC] wSubC "Not/AZone" rfl (by decide) rfl⟩

/-- C9: the eligibility computation is deterministic: two runs over the same
fixed invocation instant and the same subscription and entries store state
produce the identical eligible recipient set. -/
theorem c9_deterministic (clock1 clock2 : Clock) (store1 store2 : Store)
    (subs1 subs2 : List Sub) (h1 : clock1 = clock2) (h2 : store1 = store2)
    (h3 : subs1 = subs2) :
    usersToNotify clock1 store1 subs1 = usersToNotify clock2 store2 subs2 ∧
    eligibleSubs clock1 subs1 = eligibleSubs clock2 subs2 := by
  subst h1
  subst h2
  subst h3
  exact ⟨rfl, rfl⟩

/-- Witness for C9 at a concrete state. -/
theorem c9_deterministic_witness :
    wClock = wClock ∧ wStore = wStore ∧ ([wSubA, wSubB] : List Sub) = [wSubA, wSubB] ∧
    (usersToNotify wClock wStore [wSubA, wSubB] = usersToNotify wClock wStore [wSubA, wSubB] ∧
     eligibleSubs wClock [wSubA, wSubB] = eligibleSubs wClock [wSubA, wSubB]) :=
  ⟨rfl, rfl, rfl, c9_deterministic wClock wClock wStore wStore _ _ rfl rfl rfl⟩

/-- C8: the invocation answers an empty subscription list and an empty
eligible set with their two distinct non-error messages; otherwise it reports
Sent X over Y reminders where Y is the number of attempted recipients, X the
number of outcomes with success true (so X is at most Y), with exactly one
(user_id, success) outcome per attempted recipient; and a non-success status
occurs only when the subscriptions query or an entries query fails. -/
theorem c8_response_contract (clock : Clock) (store : Store) (push : Sub → PushResult) :
    (∀ e, handler clock store (.error e) push = (500, .err e)) ∧
    handler clock store (.ok []) push = (200, .msg "No subscriptions found") ∧
    (∀ subs, subs ≠ [] → eligibleSubs clock subs = [] →
      handler clock store (.ok subs) push =
        (200, .msg "No users in the 7 PM hour right now")) ∧
    (∀ subs l, eligibleSubs clock subs ≠ [] →
      usersToNotify clock store subs = .ok l →
      handler clock store (.ok subs) push =
        (200, .summary
          ("Sent " ++
            toString ((l.map (fun sub => (sub.user_id, sendWebPush push sub))).filter
              (fun r => r.2)).length ++ "/" ++ toString l.length ++ " reminders")
          (l.map (fun sub => (sub.user_id, sendWebPush push sub)))) ∧
      ((l.map (fun sub => (sub.user_id, sendWebPush push sub))).filter
        (fun r => r.2)).length ≤ l.length ∧
      (l.map (fun sub => (sub.user_id, sendWebPush push sub))).length = l.length) ∧
    (∀ subsResult, (handler clock store subsResult push).1 ≠ 200 →
      (∃ e, subsResult = .error e) ∨ (∃ d e, store.entriesError d = some e)) := by
  refine ⟨fun e => rfl, rfl, ?_, ?_, ?_⟩
  · intro subs hne hel
    simp only [handler]
    rw [if_neg (fun h => hne (List.length_eq_zero.mp h)), if_pos (by rw [hel]; rfl)]
  · intro subs l hel hok
    have hne : subs ≠ [] := by
      intro h
      subst h
      exact hel rfl
    refine ⟨?_, ?_, List.length_map _ _⟩
    · simp only [handler]
      rw [if_neg (fun h => hne (List.length_eq_zero.mp h)),
        if_neg (fun h => hel (List.length_eq_zero.mp h)), hok]
    · calc ((l.map (fun sub => (sub.user_id, sendWebPush push sub))).filter
            (fun r => r.2)).length
          ≤ (l.map (fun sub => (sub.user_id, sendWebPush push sub))).length :=
            List.length_filter_le _ _
        _ = l.length := List.length_map _ _
  · intro subsResult h
    exact handler_error_source clock store subsResult push h

/-- C7: a fault while delivering to one recipient (key import or signing
error, encryption error, network error, or a non-2xx response) only makes
that recipient's outcome false; delivery outcomes never change the
invocation's status, changing one recipient's outcome leaves every other
recipient's outcome unchanged, and the invocation errors only when the
subscriptions query or an entries query fails. -/
theorem c7_fault_isolation (clock : Clock) (store : Store)
    (subsResult : Except String (List Sub)) (push push2 : Sub → PushResult)
    (s0 : Sub) (hagree : ∀ s, s ≠ s0 → push2 s = push s) :
    (∀ s, (push s = .keyImportOrSignError ∨ push s = .encryptError ∨
      push s = .networkError ∨
      (∃ st, push s = .response st ∧ ¬(200 ≤ st ∧ st ≤ 299))) →
      sendWebPush push s = false) ∧
    (handler clock store subsResult push).1 = (handler clock store subsResult push2).1 ∧
    (∀ s, s ≠ s0 → sendWebPush push2 s = sendWebPush push s) ∧
    ((handler clock store subsResult push).1 = 500 →
      (∃ e, subsResult = .error e) ∨ (∃ d e, store.entriesError d = some e)) := by
  refine ⟨?_, handler_status_push clock store subsResult push push2, ?_, ?_⟩
  · intro s hf
    rcases hf with h | h | h | ⟨st, h, hst⟩
    · simp [sendWebPush, h]
    · simp [sendWebPush, h]
    · simp [sendWebPush, h]
    · simp only [sendWebPush, h]
      exact decide_eq_false hst
  · intro s hs
    simp [sendWebPush, hagree s hs]
  · intro h
    refine handler_error_source clock store subsResult push ?_
    intro habs
    rw [h] at habs
    exact absurd habs (by decide)

/-- Witness for C7 at a concrete environment where bob's delivery flips from
a 201 response to a network error. -/
theorem c7_fault_isolation_witness :
    (∀ s, s ≠ wSubB → wPush2 s = wPush s) ∧
    ((∀ s, (wPush s = .keyImportOrSignError ∨ wPush s = .encryptError ∨
      wPush s = .networkError ∨
      (∃ st, wPush s = .response st ∧ ¬(200 ≤ st ∧ st ≤ 299))) →
      sendWebPush wPush s = false) ∧
    (handler wClock wStore (.ok [wSubA, wSubB]) wPush).1 =
      (handler wClock wStore (.ok [wSubA, wSubB]) wPush2).1 ∧
    (∀ s, s ≠ wSubB → sendWebPush wPush2 s = sendWebPush wPush s) ∧
    ((handler wClock wStore (.ok [wSubA, wSubB]) wPush).1 = 500 →
      (∃ e, (.ok [wSubA, wSubB] : Except String (List Sub)) = .error e) ∨
      (∃ d e, wStore.entriesError d = some e))) :=
  ⟨fun s hs => by simp [wPush, wPush2, hs],
   c7_fault_isolation wClock wStore (.ok [wSubA, wSubB]) wPush wPush2 wSubB
     (fun s hs => by simp [wPush, wPush2, hs])⟩

theorem string_append_assoc (a b c : String) : a ++ b ++ c = a ++ (b ++ c) := by
  apply String.ext
  simp [String.data_append, List.append_assoc]

/-- C3: the VAPID signer produces a token of exactly three base64url segments
(no padding, so none of its characters is the padding or the dot character)
joined by dots; the first decodes to the JSON header with typ JWT and alg
ES256, the second decodes to the JSON claims with aud the audience, sub the
subject and exp equal to now plus 12 * 3600 seconds (vapidClaimsJson), the
third is the ECDSA P-256 / SHA-256 signature over the first two segments
joined by a dot, and the authorization header is
vapid t=(token), k=(public key). -/
theorem c3_vapid_token (sign : String → String → List Nat → List Nat)
    (audience subject publicKey privateKey : String) (now : Nat) :
    ∃ s1 s2 s3 : String,
      (createVapidJwt sign audience subject publicKey privateKey now).1 =
        "vapid t=" ++ (s1 ++ "." ++ s2 ++ "." ++ s3) ++ ", k=" ++ publicKey ∧
      (∀ c ∈ s1.data ++ s2.data ++ s3.data,
        c ∈ stdChars.map urlChar ∧ c ≠ '=' ∧ c ≠ '.') ∧
      base64UrlDecode s1 = some (utf8 vapidHeaderJson) ∧
      base64UrlDecode s2 = some (utf8 (vapidClaimsJson audience subject now)) ∧
      s3 = base64UrlEncode (sign privateKey publicKey (utf8 (s1 ++ "." ++ s2))) := by
  refine ⟨base64UrlEncode (utf8 vapidHeaderJson),
    base64UrlEncode (utf8 (vapidClaimsJson audience subject now)),
    base64UrlEncode
      (sign privateKey publicKey (utf8 (vapidUnsignedToken audience subject now))),
    rfl, ?_, ?_, ?_, rfl⟩
  · intro c hc
    have hmem : c ∈ stdChars.map urlChar := by
      rcases List.mem_append.mp hc with hc12 | hc3
      · rcases List.mem_append.mp hc12 with hc1 | hc2
        · exact encode_chars _ c hc1
        · exact encode_chars _ c hc2
      · exact encode_chars _ c hc3
    have hprop : ∀ c ∈ stdChars.map urlChar, c ≠ '=' ∧ c ≠ '.' := by decide
    exact ⟨hmem, hprop c hmem⟩
  · exact b64UrlDecodeChars_encode _ (utf8_lt _)
  · exact b64UrlDecodeChars_encode _ (utf8_lt _)

/-- C4: the audience handed to the VAPID signer is the endpoint's scheme plus
host only: it equals scheme://host and does not depend on the endpoint's
path, query or fragment. -/
theorem c4_audience_scheme_host (u : UrlParts) (scheme : String)
    (h : u.protocol = scheme ++ ":") :
    audienceOf u = scheme ++ "://" ++ u.host ∧
    (∀ pathname2 search2 hash2,
      audienceOf ⟨u.protocol, u.host, pathname2, search2, hash2⟩ = audienceOf u) := by
  constructor
  · unfold audienceOf
    rw [h, string_append_assoc scheme ":" "//"]
    rfl
  · intro pathname2 search2 hash2
    rfl

/-- Witness for C4 at a concrete endpoint URL. -/
theorem c4_audience_scheme_host_witness :
    wUrl.protocol = "https" ++ ":" ∧
    (audienceOf wUrl = "https" ++ "://" ++ wUrl.host ∧
     (∀ pathname2 search2 hash2,
       audienceOf ⟨wUrl.protocol, wUrl.host, pathname2, search2, hash2⟩ = audienceOf wUrl)) :=
  ⟨by decide, c4_audience_scheme_host wUrl "https" (by decide)⟩

/-- C5: the content-encryption key is 16 bytes and the nonce 12 bytes, each
derived from the PRK by the HKDF expansion whose info is createInfo of the
coding label (aesgcm for the key, nonce for the nonce) and the two public
keys; for the 65-byte client and server points the info lays out the label,
a zero separator, a length prefix encoding 65 before the client key and a
length prefix encoding 65 before the server key. -/
theorem c5_key_nonce_derivation (W : WebCrypto) (sharedSecret spk salt cpk auth : List Nat)
    (payload : String) (hc : cpk.length = 65) (hs : spk.length = 65) :
    (encryptPayloadWith W sharedSecret spk salt cpk auth payload).contentKey.length = 16 ∧
    (encryptPayloadWith W sharedSecret spk salt cpk auth payload).nonce.length = 12 ∧
    (encryptPayloadWith W sharedSecret spk salt cpk auth payload).contentKey =
      hkdf W salt (encryptPayloadWith W sharedSecret spk salt cpk auth payload).prk
        (createInfo "aesgcm" cpk spk) 16 ∧
    (encryptPayloadWith W sharedSecret spk salt cpk auth payload).nonce =
      hkdf W salt (encryptPayloadWith W sharedSecret spk salt cpk auth payload).prk
        (createInfo "nonce" cpk spk) 12 ∧
    createInfo "aesgcm" cpk spk =
      utf8 "Content-Encoding: aesgcm" ++ [0] ++ [0, 0, 0, cpk.length] ++ cpk ++
        [0, spk.length] ++ spk ∧
    createInfo "nonce" cpk spk =
      utf8 "Content-Encoding: nonce" ++ [0] ++ [0, 0, 0, cpk.length] ++ cpk ++
        [0, spk.length] ++ spk := by
  refine ⟨?_, ?_, rfl, rfl, ?_, ?_⟩
  · simp [encryptPayloadWith, hkdf, List.length_take, W.hmac_length]
  · simp [encryptPayloadWith, hkdf, List.length_take, W.hmac_length]
  · rw [hc, hs]
    unfold createInfo
    rw [← (by decide :
      utf8 "Content-Encoding: " ++ utf8 "aesgcm" = utf8 "Content-Encoding: aesgcm")]
    simp [List.append_assoc]
  · rw [hc, hs]
    unfold createInfo
    rw [← (by decide :
      utf8 "Content-Encoding: " ++ utf8 "nonce" = utf8 "Content-Encoding: nonce")]
    simp [List.append_assoc]

/-- Witness for C5 at 65-byte keys and concrete primitives. -/
theorem c5_key_nonce_derivation_witness :
    wCpk.length = 65 ∧ wSpk.length = 65 ∧
    ((encryptPayloadWith trivialCrypto [9] wSpk [8] wCpk [7] "hi").contentKey.length = 16 ∧
     (encryptPayloadWith trivialCrypto [9] wSpk [8] wCpk [7] "hi").nonce.length = 12 ∧
     (encryptPayloadWith trivialCrypto [9] wSpk [8] wCpk [7] "hi").contentKey =
       hkdf trivialCrypto [8] (encryptPayloadWith trivialCrypto [9] wSpk [8] wCpk [7] "hi").prk
         (createInfo "aesgcm" wCpk wSpk) 16 ∧
     (encryptPayloadWith trivialCrypto [9] wSpk [8] wCpk [7] "hi").nonce =
       hkdf trivialCrypto [8] (encryptPayloadWith trivialCrypto [9] wSpk [8] wCpk [7] "hi").prk
         (createInfo "nonce" wCpk wSpk) 12 ∧
     createInfo "aesgcm" wCpk wSpk =
       utf8 "Content-Encoding: aesgcm" ++ [0] ++ [0, 0, 0, wCpk.length] ++ wCpk ++
         [0, wSpk.length] ++ wSpk ∧
     createInfo "nonce" wCpk wSpk =
       utf8 "Content-Encoding: nonce" ++ [0] ++ [0, 0, 0, wCpk.length] ++ wCpk ++
         [0, wSpk.length] ++ wSpk) :=
  ⟨by decide, by decide,
   c5_key_nonce_derivation trivialCrypto [9] wSpk [8] wCpk [7] "hi" (by decide) (by decide)⟩

/-- C6: the byte string passed to AES-128-GCM is a 2-byte big-endian padding
length of value 0 followed by the plaintext bytes, and the returned encrypted
output is the ciphertext followed by the authentication tag, so its length is
the plaintext length plus 2 plus 16. -/
theorem c6_padding_framing (W : WebCrypto) (sharedSecret spk salt cpk auth : List Nat)
    (payload : String) :
    (encryptPayloadWith W sharedSecret spk salt cpk auth payload).padded =
      [0, 0] ++ utf8 payload ∧
    (encryptPayloadWith W sharedSecret spk salt cpk auth payload).encrypted =
      W.aesGcmCiphertext
        (encryptPayloadWith W sharedSecret spk salt cpk auth payload).contentKey
        (encryptPayloadWith W sharedSecret spk salt cpk auth payload).nonce
        (encryptPayloadWith W sharedSecret spk salt cpk auth payload).padded ++
      W.aesGcmTag
        (encryptPayloadWith W sharedSecret spk salt cpk auth payload).contentKey
        (encryptPayloadWith W sharedSecret spk salt cpk auth payload).nonce
        (encryptPayloadWith W sharedSecret spk salt cpk auth payload).padded ∧
    (encryptPayloadWith W sharedSecret spk salt cpk auth payload).encrypted.length =
      (utf8 payload).length + 2 + 16 := by
  refine ⟨rfl, rfl, ?_⟩
  simp only [encryptPayloadWith, List.length_append, W.aesGcmCiphertext_length,
    W.aesGcmTag_length, List.length_cons, List.length_nil]
  omega

/-- C10: decoding an encoded byte array gives back the bytes, and the encoded
string has no padding character and uses only the url-safe alphabet with the
dash and underscore replacing plus and slash. -/
theorem c10_base64url_roundtrip (b : List Nat) (h : ∀ x ∈ b, x < 256) :
    base64UrlDecode (base64UrlEncode b) = some b ∧
    ∀ c ∈ (base64UrlEncode b).data,
      (c ≠ '=' ∧ c ≠ '+' ∧ c ≠ '/') ∧ (c.isAlphanum = true ∨ c = '-' ∨ c = '_') := by
  constructor
  · exact b64UrlDecodeChars_encode b h
  · intro c hc
    have hmem : c ∈ stdChars.map urlChar := encode_chars b c hc
    have hprop : ∀ c ∈ stdChars.map urlChar,
        (c ≠ '=' ∧ c ≠ '+' ∧ c ≠ '/') ∧ (c.isAlphanum = true ∨ c = '-' ∨ c = '_') := by
      decide
    exact hprop c hmem

/-- Witness for C10 at a concrete byte array hitting the url-safe letters. -/
theorem c10_base64url_roundtrip_witness :
    (∀ x ∈ [0, 251, 255, 77, 64], x < 256) ∧
    (base64UrlDecode (base64UrlEncode [0, 251, 255, 77, 64]) = some [0, 251, 255, 77, 64] ∧
     ∀ c ∈ (base64UrlEncode [0, 251, 255, 77, 64]).data,
       (c ≠ '=' ∧ c ≠ '+' ∧ c ≠ '/') ∧ (c.isAlphanum = true ∨ c = '-' ∨ c = '_')) :=
  ⟨by decide, c10_base64url_roundtrip [0, 251, 255, 77, 64] (by decide)⟩

end SendReminders
